import Mathlib

/-!
# Verification of the portfolio metrics engine

A shallow embedding of the pure calculation core of a stock-portfolio
tracker (`src/app/actions.ts` and `src/app/closed-positions/page.tsx`):

* `settleSale`       — the sale-settlement computation inside `recordSale`
                       (actions.ts, lines 300-329);
* `getPortfolioWithDetails` — the portfolio-view computation
                       (actions.ts, lines 246-278);
* `recordSale`       — the active→closed state transition
                       (actions.ts, lines 280-341), with CSV I/O replaced
                       by explicit state passing on `Store`;
* `getClosedPositions` — the sale-history sort (actions.ts, lines 343-348);
* `aggregatePositions` — the closed-positions summary
                       (closed-positions/page.tsx, lines 21-48).

Modelling conventions: monetary values and percentages are exact
rationals `ℚ` (idealising JS floats); calendar dates are integers `ℤ`
counting days (date strings in the source are midnight-aligned, so
`differenceInDays` is exactly integer subtraction of day indices);
the JS number `Infinity`, which `recordSale` produces for `percentGain`
on a zero buy value, is modelled by the extended type `JsNum`.
-/

namespace Studio

/-- A JS number as produced by the settlement arithmetic: either a finite
value (an exact rational) or positive `Infinity`, which arises only from
the explicit `sellValue > 0 ? Infinity : 0` fallback in `recordSale`
(actions.ts, line 305).  The guarded arithmetic never produces `NaN` or
`-Infinity`, so neither needs a constructor. -/
inductive JsNum where
  | fin : ℚ → JsNum
  | inf : JsNum
deriving DecidableEq, Repr

/-- Division of a JS number by a finite value, as used in
`(percentGain / daysHeld)` (actions.ts, line 309).  JS semantics for the
operands that occur there: the divisor `daysHeld` is positive, so
`Infinity / daysHeld = Infinity` and finite values divide exactly. -/
def JsNum.divq : JsNum → ℚ → JsNum
  | .fin q, d => .fin (q / d)
  | .inf, _ => .inf

/-- Multiplication of a JS number by a finite value, as used in
`... * 365` (actions.ts, lines 309 and 311).  JS semantics for the
operands that occur there: the factor `365` is positive, so
`Infinity * 365 = Infinity`. -/
def JsNum.mulq : JsNum → ℚ → JsNum
  | .fin q, k => .fin (q * k)
  | .inf, _ => .inf

/-- `StockPurchase` from `src/lib/definitions.ts`: an open position.
`buyDate` is a day index; `quantity` is an integer (the source parses it
with `parseInt`). -/
structure StockPurchase where
  id : String
  name : String
  buyDate : ℤ
  buyPrice : ℚ
  targetPrice : ℚ
  quantity : ℤ
deriving DecidableEq, Repr

/-- `ClosedPosition` from `src/lib/definitions.ts`: a settled sale.
`annualizedGainPercent` is optional (`number | undefined` in the source);
`percentGain` may be `Infinity`, hence `JsNum`. -/
structure ClosedPosition where
  id : String
  name : String
  buyDate : ℤ
  buyPrice : ℚ
  quantity : ℤ
  buyValue : ℚ
  sellDate : ℤ
  sellPrice : ℚ
  sellValue : ℚ
  gain : ℚ
  daysHeld : ℤ
  percentGain : JsNum
  annualizedGainPercent : Option JsNum
deriving DecidableEq, Repr

/-- `PortfolioItem` from `src/lib/definitions.ts`: an active purchase
enriched with live-price data.  `remainingGain` and `portfolioWeightage`
are optional in the source. -/
structure PortfolioItem where
  id : String
  name : String
  buyDate : ℤ
  buyPrice : ℚ
  targetPrice : ℚ
  quantity : ℤ
  currentPrice : ℚ
  currentValue : ℚ
  gainLoss : ℚ
  gainLossPercent : ℚ
  daysSinceBuy : ℤ
  remainingGain : Option ℚ
  portfolioWeightage : Option ℚ
deriving DecidableEq, Repr

/-- The sale-settlement computation of `recordSale`
(actions.ts, lines 300-329): derives a `ClosedPosition` from the active
purchase being sold and the validated sale inputs `sellDate` and
`sellPrice`. -/
def settleSale (stockToSell : StockPurchase) (sellDate : ℤ) (sellPrice : ℚ) :
    ClosedPosition :=
  let buyValue := stockToSell.buyPrice * (stockToSell.quantity : ℚ)
  let sellValue := sellPrice * (stockToSell.quantity : ℚ)
  let gain := sellValue - buyValue
  let daysHeld := sellDate - stockToSell.buyDate
  let percentGain : JsNum :=
    if 0 < buyValue then .fin (gain / buyValue * 100)
    else if 0 < sellValue then .inf else .fin 0
  let annualizedGainPercent : Option JsNum :=
    if 0 < daysHeld ∧ 0 < buyValue then
      some ((percentGain.divq (daysHeld : ℚ)).mulq 365)
    else if daysHeld = 0 ∧ 0 < buyValue ∧ percentGain ≠ .fin 0 then
      some (percentGain.mulq 365)
    else none
  { id := stockToSell.id
    name := stockToSell.name
    buyDate := stockToSell.buyDate
    buyPrice := stockToSell.buyPrice
    quantity := stockToSell.quantity
    buyValue := buyValue
    sellDate := sellDate
    sellPrice := sellPrice
    sellValue := sellValue
    gain := gain
    daysHeld := daysHeld
    percentGain := percentGain
    annualizedGainPercent := annualizedGainPercent }

/-- The per-purchase step of the portfolio-view loop in
`getPortfolioWithDetails` (actions.ts, lines 249-272): resolves the
current price from the price map (0 when the name is absent, mirroring
`stockPriceMap.get(stock.name) || 0`), computes the derived metrics, and
copies the purchase fields.  `portfolioWeightage` is not yet set at this
stage. -/
def buildPortfolioItem (stockPriceMap : String → Option ℚ) (today : ℤ)
    (stock : StockPurchase) : PortfolioItem :=
  let currentPrice := (stockPriceMap stock.name).getD 0
  let currentValue := currentPrice * (stock.quantity : ℚ)
  let buyValue := stock.buyPrice * (stock.quantity : ℚ)
  let gainLoss := currentValue - buyValue
  let gainLossPercent := if 0 < buyValue then gainLoss / buyValue * 100 else 0
  let daysSinceBuy := today - stock.buyDate
  let remainingGain : Option ℚ :=
    if stock.targetPrice ≠ 0 ∧ 0 < stock.targetPrice ∧
        currentPrice < stock.targetPrice then
      some ((stock.targetPrice - currentPrice) * (stock.quantity : ℚ))
    else none
  { id := stock.id
    name := stock.name
    buyDate := stock.buyDate
    buyPrice := stock.buyPrice
    targetPrice := stock.targetPrice
    quantity := stock.quantity
    currentPrice := currentPrice
    currentValue := currentValue
    gainLoss := gainLoss
    gainLossPercent := gainLossPercent
    daysSinceBuy := daysSinceBuy
    remainingGain := remainingGain
    portfolioWeightage := none }

/-- The pure core of `getPortfolioWithDetails` (actions.ts, lines
246-278), after the price map has been built from the sheet data: builds
one `PortfolioItem` per purchase while accumulating
`totalPortfolioValue`, then fills in `portfolioWeightage` in a second
pass over the built items. -/
def getPortfolioWithDetails (portfolio : List StockPurchase)
    (stockPriceMap : String → Option ℚ) (today : ℤ) : List PortfolioItem :=
  let detailedPortfolio := portfolio.map (buildPortfolioItem stockPriceMap today)
  let totalPortfolioValue :=
    detailedPortfolio.foldl (fun acc item => acc + item.currentValue) 0
  detailedPortfolio.map (fun item =>
    { item with
      portfolioWeightage :=
        some (if 0 < totalPortfolioValue then
                item.currentValue / totalPortfolioValue * 100
              else 0) })

/-- The persistent state touched by `recordSale`: the active-purchases
list (`Active_Stock.csv`) and the closed-positions list
(`Closed_Positions.csv`). -/
structure Store where
  portfolio : List StockPurchase
  closed : List ClosedPosition
deriving DecidableEq, Repr

/-- The state transition of `recordSale` (actions.ts, lines 280-341) with
CSV I/O replaced by explicit state passing: find the first active
purchase whose id matches, and either report failure leaving the state
unchanged (`Stock not found in portfolio.`), or append the settled
`ClosedPosition` to the closed list and splice the purchase out of the
active list.  The boolean is `true` on success. -/
def recordSale (st : Store) (stockId : String) (sellDate : ℤ)
    (sellPrice : ℚ) : Store × Bool :=
  match st.portfolio.findIdx? (fun s => s.id == stockId) with
  | none => (st, false)
  | some stockIndex =>
    match st.portfolio[stockIndex]? with
    | none => (st, false)
    | some stockToSell =>
      ({ portfolio := st.portfolio.eraseIdx stockIndex
         closed := st.closed ++ [settleSale stockToSell sellDate sellPrice] },
       true)

/-- The pure core of `getClosedPositions` (actions.ts, lines 343-348):
returns a copy of the stored closed positions sorted by `sellDate`
descending (`new Date(b.sellDate).getTime() - new Date(a.sellDate).getTime()`
is negative exactly when `b.sellDate < a.sellDate`, i.e. the comparator
puts later sale dates first).  The JS engine's sort is modelled by
`mergeSort` with the corresponding boolean order. -/
def getClosedPositions (closedPositions : List ClosedPosition) :
    List ClosedPosition :=
  closedPositions.mergeSort (fun a b => decide (b.sellDate ≤ a.sellDate))

/-- The fixed CAGR reference start date of the closed-positions summary,
`new Date('2023-01-01')` (closed-positions/page.tsx, line 36), as a day
index: 2023-01-01 is day 19358 counting from 1970-01-01. -/
def cagrStartDate : ℤ := 19358

/-- The summary values computed at the top of `ClosedPositionsPage`
(closed-positions/page.tsx, lines 21-48). -/
structure ClosedSummary where
  totalSellValue : ℚ
  totalBuyValue : ℚ
  totalProfit : ℚ
  overallPnlPercent : Option ℚ
  cagr : Option ℝ

/-- The aggregation over all closed positions performed by
`ClosedPositionsPage` (closed-positions/page.tsx, lines 21-48),
parametrised by `today` (the `new Date()` used for the CAGR day count).
The summary variables start at `0` / `undefined` and are only assigned
when the list is non-empty; `Math.pow` on the non-negative base is the
real power function. -/
noncomputable def aggregatePositions (closedPositions : List ClosedPosition)
    (today : ℤ) : ClosedSummary :=
  if 0 < closedPositions.length then
    let totalSellValue := closedPositions.foldl (fun sum pos => sum + pos.sellValue) 0
    let totalBuyValue := closedPositions.foldl (fun sum pos => sum + pos.buyValue) 0
    let totalProfit := totalSellValue - totalBuyValue
    let overallPnlPercent : Option ℚ :=
      if 0 < totalBuyValue then some (totalProfit / totalBuyValue * 100) else none
    let cagrDaysHeld := today - cagrStartDate
    let cagr : Option ℝ :=
      if 0 < cagrDaysHeld ∧ 0 < totalBuyValue then
        let cagrYears : ℚ := (cagrDaysHeld : ℚ) / (365.25 : ℚ)
        let baseRatio := totalSellValue / totalBuyValue
        if 0 ≤ baseRatio then
          some (((baseRatio : ℝ) ^ (((1 : ℚ) / cagrYears : ℚ) : ℝ) - 1) * 100)
        else none
      else none
    { totalSellValue := totalSellValue
      totalBuyValue := totalBuyValue
      totalProfit := totalProfit
      overallPnlPercent := overallPnlPercent
      cagr := cagr }
  else
    { totalSellValue := 0
      totalBuyValue := 0
      totalProfit := 0
      overallPnlPercent := none
      cagr := none }

/-- Example purchase used by witnesses: the annualisation test vector. -/
def exPurchase : StockPurchase := ⟨"1", "Stock A", 0, 100, 0, 10⟩

/-- Example purchase with a zero buy price, reaching the zero-buy-value fallbacks. -/
def zeroBuyPurchase : StockPurchase := ⟨"2", "Stock B", 0, 0, 0, 10⟩

/-- Example purchase bought on day 10, sold before purchase in the witness. -/
def latePurchase : StockPurchase := ⟨"3", "Stock C", 10, 100, 0, 10⟩

/-- C1: for a settlement with positive `buyValue`, `annualizedGainPercent`
is `(percentGain / daysHeld) * 365` when `daysHeld > 0`, `percentGain * 365`
when `daysHeld = 0` and `percentGain ≠ 0`, and absent in every other case
(negative `daysHeld`, or a same-day sale with zero `percentGain`); with
`buyValue = 0` it is absent regardless of `daysHeld`. -/
theorem settleSale_annualizedGainPercent (p : StockPurchase) (d : ℤ) (sp : ℚ) :
    (0 < (settleSale p d sp).buyValue →
      (0 < (settleSale p d sp).daysHeld →
        (settleSale p d sp).annualizedGainPercent =
          some (((settleSale p d sp).percentGain.divq
            (((settleSale p d sp).daysHeld : ℤ) : ℚ)).mulq 365)) ∧
      ((settleSale p d sp).daysHeld = 0 → (settleSale p d sp).percentGain ≠ .fin 0 →
        (settleSale p d sp).annualizedGainPercent =
          some ((settleSale p d sp).percentGain.mulq 365)) ∧
      ((settleSale p d sp).daysHeld < 0 →
        (settleSale p d sp).annualizedGainPercent = none) ∧
      ((settleSale p d sp).daysHeld = 0 → (settleSale p d sp).percentGain = .fin 0 →
        (settleSale p d sp).annualizedGainPercent = none)) ∧
    ((settleSale p d sp).buyValue = 0 →
      (settleSale p d sp).annualizedGainPercent = none) := by
  simp only [settleSale]
  constructor
  · intro hbv
    refine ⟨fun hdh => ?_, fun hdh hpg => ?_, fun hdh => ?_, fun hdh hpg => ?_⟩
    · rw [if_pos ⟨hdh, hbv⟩]
    · rw [if_neg (by simp [hdh]), if_pos ⟨hdh, hbv, hpg⟩]
    · rw [if_neg (by omega), if_neg (by omega)]
    · rw [if_neg (by simp [hdh]), if_neg (by simp [hdh, hpg])]
  · intro hbv
    rw [if_neg (by simp [hbv]), if_neg (by simp [hbv])]

/-- Witness for C1: the spec §8 test vector, a 73-day holding with
positive buy value, takes the `daysHeld > 0` annualisation branch. -/
theorem settleSale_annualizedGainPercent_witness :
    (settleSale exPurchase 73 110).annualizedGainPercent =
      some (((settleSale exPurchase 73 110).percentGain.divq
        (((settleSale exPurchase 73 110).daysHeld : ℤ) : ℚ)).mulq 365) :=
  ((settleSale_annualizedGainPercent exPurchase 73 110).1
    (by simp [settleSale, exPurchase, zeroBuyPurchase])).1
    (by simp [settleSale, exPurchase, zeroBuyPurchase])

/-- C2: `percentGain` is `gain / buyValue * 100` when `buyValue > 0`;
when `buyValue = 0` it is `Infinity` if `sellValue > 0` and `0` if
`sellValue = 0`.  The zero denominator is guarded by the ternary at
actions.ts line 305, so the division never produces an error or `NaN`
(the result type `JsNum` has no `NaN` value to produce). -/
theorem settleSale_percentGain (p : StockPurchase) (d : ℤ) (sp : ℚ) :
    (0 < (settleSale p d sp).buyValue →
      (settleSale p d sp).percentGain =
        .fin ((settleSale p d sp).gain / (settleSale p d sp).buyValue * 100)) ∧
    ((settleSale p d sp).buyValue = 0 →
      (0 < (settleSale p d sp).sellValue → (settleSale p d sp).percentGain = .inf) ∧
      ((settleSale p d sp).sellValue = 0 → (settleSale p d sp).percentGain = .fin 0)) := by
  simp only [settleSale]
  constructor
  · intro hbv; rw [if_pos hbv]
  · intro hbv
    constructor
    · intro hsv; rw [if_neg (by simp [hbv]), if_pos hsv]
    · intro hsv; rw [if_neg (by simp [hbv]), if_neg (by simp [hsv])]

/-- Witness for C2: a zero buy value with a positive sell value yields
`Infinity`, not an error. -/
theorem settleSale_percentGain_witness :
    (settleSale zeroBuyPurchase 5 110).percentGain = .inf :=
  ((settleSale_percentGain zeroBuyPurchase 5 110).2
    (by simp [settleSale, exPurchase, zeroBuyPurchase])).1
    (by simp [settleSale, exPurchase, zeroBuyPurchase])

/-- C3: the settled `ClosedPosition` satisfies
`buyValue = buyPrice * quantity`, `sellValue = sellPrice * quantity`,
`gain = sellValue - buyValue`, copies `id`, `name`, `buyDate`, `buyPrice`
and `quantity` unchanged, and carries no `targetPrice` field: the
`ClosedPosition` type has no such field, and the result does not depend
on the purchase's `targetPrice` at all. -/
theorem settleSale_closedPosition_fields (p : StockPurchase) (d : ℤ) (sp : ℚ) :
    (settleSale p d sp).buyValue = p.buyPrice * (p.quantity : ℚ) ∧
    (settleSale p d sp).sellValue = sp * (p.quantity : ℚ) ∧
    (settleSale p d sp).gain =
      (settleSale p d sp).sellValue - (settleSale p d sp).buyValue ∧
    (settleSale p d sp).id = p.id ∧
    (settleSale p d sp).name = p.name ∧
    (settleSale p d sp).buyDate = p.buyDate ∧
    (settleSale p d sp).buyPrice = p.buyPrice ∧
    (settleSale p d sp).quantity = p.quantity ∧
    ∀ t : ℚ, settleSale { p with targetPrice := t } d sp = settleSale p d sp :=
  ⟨rfl, rfl, rfl, rfl, rfl, rfl, rfl, rfl, fun _ => rfl⟩

/-- C4: `settleSale` never rejects its input; `daysHeld` is the signed
day difference `sellDate - buyDate`, negative when the sale date precedes
the buy date and zero for a same-day sale. -/
theorem settleSale_daysHeld (p : StockPurchase) (d : ℤ) (sp : ℚ) :
    (settleSale p d sp).daysHeld = d - p.buyDate ∧
    (d < p.buyDate → (settleSale p d sp).daysHeld < 0) ∧
    (d = p.buyDate → (settleSale p d sp).daysHeld = 0) := by
  refine ⟨rfl, fun h => ?_, fun h => ?_⟩ <;> simp only [settleSale] <;> omega

/-- Witness for C4: selling on day 3 a purchase bought on day 10 yields a
negative `daysHeld`; selling on the buy day yields zero. -/
theorem settleSale_daysHeld_witness :
    (settleSale latePurchase 3 110).daysHeld < 0 ∧
    (settleSale latePurchase 10 110).daysHeld = 0 :=
  ⟨(settleSale_daysHeld latePurchase 3 110).2.1 (by decide),
   (settleSale_daysHeld latePurchase 10 110).2.2 rfl⟩

/-- Auxiliary: a left fold accumulating `currentValue` (the
`totalPortfolioValue += currentValue` loop) equals the initial
accumulator plus the sum of the mapped values. -/
theorem foldl_currentValue_eq_sum (l : List PortfolioItem) (a : ℚ) :
    l.foldl (fun acc item => acc + item.currentValue) a
      = a + (l.map (·.currentValue)).sum := by
  induction l generalizing a with
  | nil => simp
  | cons x xs ih => simp [ih, add_assoc]

/-- Auxiliary: sums distribute over pointwise `(· / T * c)`. -/
theorem sum_map_div_mul (l : List ℚ) (T c : ℚ) :
    (l.map (fun x => x / T * c)).sum = l.sum / T * c := by
  induction l with
  | nil => simp
  | cons x xs ih => simp [ih, add_div, add_mul]

/-- Updating `portfolioWeightage` leaves `currentValue` unchanged. -/
theorem update_weightage_currentValue (item : PortfolioItem) (w : Option ℚ) :
    ({ item with portfolioWeightage := w }).currentValue = item.currentValue := rfl

/-- Updating `portfolioWeightage` sets exactly that field. -/
theorem update_weightage_weightage (item : PortfolioItem) (w : Option ℚ) :
    ({ item with portfolioWeightage := w }).portfolioWeightage = w := rfl

/-- Auxiliary: `currentValue` across the weightage-filling second pass. -/
theorem map_currentValue_map_update (D : List PortfolioItem)
    (w : PortfolioItem → Option ℚ) :
    ((D.map fun item => { item with portfolioWeightage := w item }).map
      (·.currentValue)) = D.map (·.currentValue) := by
  rw [List.map_map]; rfl

/-- Auxiliary: reading the weightages back after the second pass. -/
theorem map_getD_weightage_map_update (D : List PortfolioItem)
    (w : PortfolioItem → Option ℚ) :
    ((D.map fun item => { item with portfolioWeightage := w item }).map
      (fun item => item.portfolioWeightage.getD 0))
      = D.map (fun item => (w item).getD 0) := by
  rw [List.map_map]; rfl

/-- Auxiliary: dividing each `currentValue`, as a map over the values. -/
theorem map_cv_div (D : List PortfolioItem) (T c : ℚ) :
    (D.map (fun item => item.currentValue / T * c))
      = (D.map (·.currentValue)).map (fun x => x / T * c) := by
  rw [List.map_map]; rfl

/-- C5: with `total` the sum of `currentValue` over all view items, every
item's `portfolioWeightage` is `currentValue / total * 100` and the
weightages sum to exactly 100 when `total > 0` (exact rational
arithmetic, so the floating-point tolerance of the spec is met exactly),
and every weightage is 0 when `total = 0`. -/
theorem getPortfolioWithDetails_weightage (portfolio : List StockPurchase)
    (prices : String → Option ℚ) (today : ℤ) :
    let view := getPortfolioWithDetails portfolio prices today
    let total := (view.map (·.currentValue)).sum
    (0 < total →
      (∀ item ∈ view, item.portfolioWeightage =
        some (item.currentValue / total * 100)) ∧
      (view.map (fun item => item.portfolioWeightage.getD 0)).sum = 100) ∧
    (total = 0 → ∀ item ∈ view, item.portfolioWeightage = some 0) := by
  simp only [getPortfolioWithDetails]
  set D := portfolio.map (buildPortfolioItem prices today) with hD
  have hT : D.foldl (fun acc item => acc + item.currentValue) 0
      = (D.map (·.currentValue)).sum := by
    rw [foldl_currentValue_eq_sum, zero_add]
  simp only [map_currentValue_map_update, hT]
  constructor
  · intro htot
    simp only [if_pos htot]
    constructor
    · intro item hmem
      rw [List.mem_map] at hmem
      obtain ⟨b, hb, rfl⟩ := hmem
      rw [update_weightage_weightage, update_weightage_currentValue]
    · rw [map_getD_weightage_map_update]
      simp only [Option.getD_some]
      rw [map_cv_div, sum_map_div_mul, div_self (ne_of_gt htot), one_mul]
  · intro htot
    intro item hmem
    rw [List.mem_map] at hmem
    obtain ⟨b, hb, rfl⟩ := hmem
    rw [update_weightage_weightage]
    simp [htot]

/-- Example price lookup used by witnesses: knows only `Stock A`. -/
def exPrices : String → Option ℚ := fun name =>
  if name = "Stock A" then some 120 else none

/-- Example purchase of `Stock A` with a target price above the current
price, used by the remaining-gain witness. -/
def exTargetPurchase : StockPurchase := ⟨"4", "Stock A", 0, 100, 150, 10⟩

/-- Witness for C5: a one-stock portfolio with a known price has
weightages summing to 100. -/
theorem getPortfolioWithDetails_weightage_witness :
    ((getPortfolioWithDetails [exTargetPurchase] exPrices 0).map
      (fun item => item.portfolioWeightage.getD 0)).sum = 100 :=
  ((getPortfolioWithDetails_weightage [exTargetPurchase] exPrices 0).1
    (by simp [getPortfolioWithDetails, buildPortfolioItem, exTargetPurchase,
      exPrices])).2

/-- C6: a view item's `remainingGain` is present exactly when
`targetPrice > 0` and `targetPrice > currentPrice`, in which case it is
`(targetPrice - currentPrice) * quantity`; in every other case
(including `targetPrice = 0`) it is absent, not zero. -/
theorem getPortfolioWithDetails_remainingGain (portfolio : List StockPurchase)
    (prices : String → Option ℚ) (today : ℤ) :
    ∀ item ∈ getPortfolioWithDetails portfolio prices today,
      item.remainingGain =
        if 0 < item.targetPrice ∧ item.currentPrice < item.targetPrice then
          some ((item.targetPrice - item.currentPrice) * (item.quantity : ℚ))
        else none := by
  intro item hmem
  simp only [getPortfolioWithDetails, List.mem_map] at hmem
  obtain ⟨b, hb, rfl⟩ := hmem
  obtain ⟨stock, hstock, rfl⟩ := hb
  simp only [update_weightage_weightage, buildPortfolioItem]
  split_ifs with h1 h2 h3
  · rfl
  · exact absurd ⟨h1.2.1, h1.2.2⟩ h2
  · exact absurd ⟨h3.1.ne', h3.1, h3.2⟩ h1
  · rfl

/-- The single item of the witness portfolio view. -/
def exViewItem : PortfolioItem :=
  (getPortfolioWithDetails [exTargetPurchase] exPrices 0).get
    ⟨0, by simp [getPortfolioWithDetails]⟩

/-- Witness for C6: a target price of 150 above the current price 120
yields a remaining gain of (150 - 120) * 10. -/
theorem getPortfolioWithDetails_remainingGain_witness :
    exViewItem.remainingGain =
      if 0 < exViewItem.targetPrice ∧
          exViewItem.currentPrice < exViewItem.targetPrice then
        some ((exViewItem.targetPrice - exViewItem.currentPrice) *
          (exViewItem.quantity : ℚ))
      else none :=
  getPortfolioWithDetails_remainingGain [exTargetPurchase] exPrices 0
    exViewItem (List.get_mem _ _ _)

/-- Updating `portfolioWeightage` leaves `currentPrice` unchanged. -/
theorem update_weightage_currentPrice (item : PortfolioItem) (w : Option ℚ) :
    ({ item with portfolioWeightage := w }).currentPrice = item.currentPrice := rfl

/-- Updating `portfolioWeightage` leaves `quantity` unchanged. -/
theorem update_weightage_quantity (item : PortfolioItem) (w : Option ℚ) :
    ({ item with portfolioWeightage := w }).quantity = item.quantity := rfl

/-- Updating `portfolioWeightage` leaves `buyPrice` unchanged. -/
theorem update_weightage_buyPrice (item : PortfolioItem) (w : Option ℚ) :
    ({ item with portfolioWeightage := w }).buyPrice = item.buyPrice := rfl

/-- Updating `portfolioWeightage` leaves `gainLossPercent` unchanged. -/
theorem update_weightage_gainLossPercent (item : PortfolioItem) (w : Option ℚ) :
    ({ item with portfolioWeightage := w }).gainLossPercent =
      item.gainLossPercent := rfl

/-- C7: a purchase whose name is absent from the price lookup gets
`currentPrice = 0` and hence `currentValue = 0` without error; and
`gainLossPercent` is `(currentValue - buyValue) / buyValue * 100` when
`buyValue > 0` and `0` when `buyValue = 0` (a rational, never `NaN`). -/
theorem getPortfolioWithDetails_gainLossPercent (portfolio : List StockPurchase)
    (prices : String → Option ℚ) (today : ℤ) (i : ℕ)
    (h : i < portfolio.length)
    (h' : i < (getPortfolioWithDetails portfolio prices today).length) :
    let item := (getPortfolioWithDetails portfolio prices today).get ⟨i, h'⟩
    let stock := portfolio.get ⟨i, h⟩
    let buyValue := item.buyPrice * (item.quantity : ℚ)
    (prices stock.name = none →
      item.currentPrice = 0 ∧ item.currentValue = 0) ∧
    (0 < buyValue →
      item.gainLossPercent = (item.currentValue - buyValue) / buyValue * 100) ∧
    (buyValue = 0 → item.gainLossPercent = 0) := by
  simp only [getPortfolioWithDetails, List.get_eq_getElem, List.getElem_map,
    update_weightage_currentPrice, update_weightage_currentValue,
    update_weightage_buyPrice, update_weightage_quantity,
    update_weightage_gainLossPercent, buildPortfolioItem]
  refine ⟨fun hmiss => ?_, fun hbv => ?_, fun hbv => ?_⟩
  · rw [hmiss]
    exact ⟨rfl, zero_mul _⟩
  · rw [if_pos hbv]
  · rw [if_neg (by simp [hbv])]

/-- Witness for C7: `Stock B` is absent from the witness price lookup,
so its item degrades to zero current price and value; its zero buy value
yields a zero `gainLossPercent`. -/
theorem getPortfolioWithDetails_gainLossPercent_witness :
    (((getPortfolioWithDetails [zeroBuyPurchase] exPrices 0).get
        ⟨0, by simp [getPortfolioWithDetails]⟩).currentPrice = 0 ∧
      ((getPortfolioWithDetails [zeroBuyPurchase] exPrices 0).get
        ⟨0, by simp [getPortfolioWithDetails]⟩).currentValue = 0) ∧
    ((getPortfolioWithDetails [zeroBuyPurchase] exPrices 0).get
        ⟨0, by simp [getPortfolioWithDetails]⟩).gainLossPercent = 0 :=
  ⟨(getPortfolioWithDetails_gainLossPercent [zeroBuyPurchase] exPrices 0 0
      (by simp) (by simp [getPortfolioWithDetails])).1
      (by simp [exPrices, zeroBuyPurchase]),
   (getPortfolioWithDetails_gainLossPercent [zeroBuyPurchase] exPrices 0 0
      (by simp) (by simp [getPortfolioWithDetails])).2.2
      (by simp [getPortfolioWithDetails, buildPortfolioItem, zeroBuyPurchase,
        exPrices])⟩

/-- Auxiliary: the `reduce((sum, pos) => sum + f(pos), 0)` folds are sums. -/
theorem foldl_add_eq_sum (l : List ClosedPosition) (f : ClosedPosition → ℚ)
    (a : ℚ) : l.foldl (fun sum pos => sum + f pos) a = a + (l.map f).sum := by
  induction l generalizing a with
  | nil => simp
  | cons x xs ih => simp [ih, add_assoc]

/-- C8: `aggregatePositions` totals are the sums of `buyValue` and
`sellValue`, `totalProfit` is their difference, `overallPnlPercent` is
`totalProfit / totalBuyValue * 100` exactly when `totalBuyValue > 0` and
absent otherwise, and `cagr` is `(ratio ^ (1 / (days / 365.25)) - 1) * 100`
with `ratio = totalSellValue / totalBuyValue` and `days` the elapsed days
from the fixed reference start date, exactly when `totalBuyValue > 0`,
`days > 0` and `ratio ≥ 0`, else absent; for the empty list all totals
are 0 and both optional figures are absent. -/
theorem aggregatePositions_spec (l : List ClosedPosition) (today : ℤ) :
    let S := aggregatePositions l today
    let totalBuy := (l.map (·.buyValue)).sum
    let totalSell := (l.map (·.sellValue)).sum
    S.totalBuyValue = totalBuy ∧
    S.totalSellValue = totalSell ∧
    S.totalProfit = totalSell - totalBuy ∧
    S.overallPnlPercent =
      (if 0 < totalBuy then some ((totalSell - totalBuy) / totalBuy * 100)
       else none) ∧
    S.cagr =
      (if 0 < totalBuy ∧ 0 < today - cagrStartDate ∧ 0 ≤ totalSell / totalBuy
       then some ((((totalSell / totalBuy : ℚ) : ℝ) ^
          ((((1 : ℚ) / (((today - cagrStartDate : ℤ) : ℚ) / (365.25 : ℚ)) : ℚ)) : ℝ)
          - 1) * 100)
       else none) ∧
    aggregatePositions [] today = ⟨0, 0, 0, none, none⟩ := by
  cases l with
  | nil => simp [aggregatePositions]
  | cons x xs =>
    have hsell : (x :: xs).foldl (fun sum pos => sum + pos.sellValue) 0
        = ((x :: xs).map (·.sellValue)).sum := by
      rw [foldl_add_eq_sum, zero_add]
    have hbuy : (x :: xs).foldl (fun sum pos => sum + pos.buyValue) 0
        = ((x :: xs).map (·.buyValue)).sum := by
      rw [foldl_add_eq_sum, zero_add]
    simp only [aggregatePositions, List.length_cons, hsell, hbuy]
    rw [if_pos (Nat.succ_pos _)]
    refine ⟨rfl, rfl, rfl, rfl, ?_, by simp [aggregatePositions]⟩
    split_ifs <;> first | rfl | tauto

/-- Auxiliary: splicing index `pre.length` out of `pre ++ x :: suf`
removes exactly `x`. -/
theorem eraseIdx_append_cons {α : Type} (pre : List α) (x : α) (suf : List α) :
    (pre ++ x :: suf).eraseIdx pre.length = pre ++ suf := by
  induction pre with
  | nil => rfl
  | cons a l ih => simp [ih]

/-- Auxiliary: the element at index `pre.length` of `pre ++ x :: suf`. -/
theorem getElem?_append_cons {α : Type} (pre : List α) (x : α) (suf : List α) :
    (pre ++ x :: suf)[pre.length]? = some x := by
  induction pre with
  | nil => simp
  | cons a l ih => simpa using ih

/-- Auxiliary: a successful `findIndex` splits the list at the first
match. -/
theorem findIdx?_split {α : Type} {p : α → Bool} :
    ∀ {l : List α} {i : ℕ}, l.findIdx? p = some i →
      ∃ pre x suf, l = pre ++ x :: suf ∧ pre.length = i ∧ p x = true ∧
        ∀ a ∈ pre, p a = false
  | [], i, h => by simp at h
  | a :: l, i, h => by
    rw [List.findIdx?_cons] at h
    by_cases hp : p a = true
    · rw [if_pos hp] at h
      obtain rfl : (0 : ℕ) = i := Option.some.inj h
      exact ⟨[], a, l, rfl, rfl, hp, by simp⟩
    · rw [if_neg hp] at h
      rw [List.findIdx?_start_succ] at h
      obtain ⟨j, hj, rfl⟩ := Option.map_eq_some'.mp h
      obtain ⟨pre, x, suf, rfl, hlen, hx, hpre⟩ := findIdx?_split hj
      refine ⟨a :: pre, x, suf, rfl, by simp [hlen], hx, ?_⟩
      intro b hb
      rcases List.mem_cons.mp hb with rfl | hb
      · simpa using hp
      · exact hpre b hb

/-- C9: when the requested id exists in the active list (with the store
invariants that active ids are unique and disjoint from closed ids),
`recordSale` succeeds, removes exactly that record from the active list,
appends exactly one `ClosedPosition` with the same id to the closed
list, and afterwards no id is in both lists; when the id does not exist,
it reports failure and leaves the state unchanged. -/
theorem recordSale_spec (st : Store) (stockId : String) (d : ℤ) (sp : ℚ)
    (hnodup : (st.portfolio.map (·.id)).Nodup)
    (hdisj : ∀ a ∈ st.portfolio, ∀ c ∈ st.closed, a.id ≠ c.id) :
    ((∃ s ∈ st.portfolio, s.id = stockId) →
      (recordSale st stockId d sp).2 = true ∧
      ∃ pre s suf,
        st.portfolio = pre ++ s :: suf ∧ s.id = stockId ∧
        (recordSale st stockId d sp).1.portfolio = pre ++ suf ∧
        (recordSale st stockId d sp).1.closed
          = st.closed ++ [settleSale s d sp] ∧
        (settleSale s d sp).id = stockId ∧
        (∀ a ∈ (recordSale st stockId d sp).1.portfolio, a.id ≠ stockId) ∧
        (∀ a ∈ (recordSale st stockId d sp).1.portfolio,
          ∀ c ∈ (recordSale st stockId d sp).1.closed, a.id ≠ c.id)) ∧
    ((∀ s ∈ st.portfolio, s.id ≠ stockId) →
      recordSale st stockId d sp = (st, false)) := by
  constructor
  · rintro ⟨s0, hs0, hid0⟩
    have hfind : st.portfolio.findIdx? (fun s => s.id == stockId)
        = some (st.portfolio.findIdx (fun s => s.id == stockId)) :=
      List.findIdx?_eq_some_of_exists ⟨s0, hs0, by simp [hid0]⟩
    obtain ⟨pre, s, suf, hdecomp, hlen, hps, hpre⟩ := findIdx?_split hfind
    have hsid : s.id = stockId := by simpa using hps
    have hget : st.portfolio[st.portfolio.findIdx
        (fun s => s.id == stockId)]? = some s := by
      conv_lhs => rw [← hlen, hdecomp]
      exact getElem?_append_cons pre s suf
    have herase : st.portfolio.eraseIdx
        (st.portfolio.findIdx (fun s => s.id == stockId)) = pre ++ suf := by
      conv_lhs => rw [← hlen, hdecomp]
      exact eraseIdx_append_cons pre s suf
    have hrs : recordSale st stockId d sp =
        ({ portfolio := pre ++ suf,
           closed := st.closed ++ [settleSale s d sp] }, true) := by
      simp only [recordSale, hfind, hget, herase]
    -- id facts from nodup
    rw [hdecomp] at hnodup
    simp only [List.map_append, List.map_cons, List.nodup_append,
      List.nodup_cons, List.disjoint_cons_right] at hnodup
    have hsid_pre : s.id ∉ pre.map (·.id) := hnodup.2.2.1
    have hsid_suf : s.id ∉ suf.map (·.id) := hnodup.2.1.1
    have hno_new : ∀ a ∈ pre ++ suf, a.id ≠ stockId := by
      intro a ha haid
      rcases List.mem_append.mp ha with ha | ha
      · exact hsid_pre (by
          rw [← hsid] at haid
          exact haid ▸ List.mem_map_of_mem (·.id) ha)
      · exact hsid_suf (by
          rw [← hsid] at haid
          exact haid ▸ List.mem_map_of_mem (·.id) ha)
    refine ⟨by rw [hrs], pre, s, suf, hdecomp, hsid, by rw [hrs], by rw [hrs],
      hsid, by rw [hrs]; exact hno_new, ?_⟩
    rw [hrs]
    intro a ha c hc
    rcases List.mem_append.mp hc with hc | hc
    · refine hdisj a ?_ c hc
      rw [hdecomp]
      rcases List.mem_append.mp ha with ha | ha
      · exact List.mem_append.mpr (Or.inl ha)
      · exact List.mem_append.mpr (Or.inr (List.mem_cons_of_mem _ ha))
    · rcases List.mem_singleton.mp hc with rfl
      intro haid
      exact hno_new a ha (by rw [haid]; exact hsid)
  · intro hnone
    have hfind : st.portfolio.findIdx? (fun s => s.id == stockId) = none := by
      rw [List.findIdx?_eq_none_iff]
      intro x hx
      simpa using hnone x hx
    simp only [recordSale, hfind]

/-- Witness store for C9: one active purchase, no closed positions. -/
def exStore : Store := ⟨[exPurchase], []⟩

/-- Witness for C9: selling the only stock of the witness store
succeeds; selling an unknown id fails and leaves the store unchanged. -/
theorem recordSale_spec_witness :
    (recordSale exStore "1" 73 110).2 = true ∧
    recordSale exStore "zzz" 73 110 = (exStore, false) :=
  ⟨((recordSale_spec exStore "1" 73 110 (by simp [exStore, exPurchase])
      (by simp [exStore])).1 ⟨exPurchase, by simp [exStore], rfl⟩).1,
   (recordSale_spec exStore "zzz" 73 110 (by simp [exStore, exPurchase])
      (by simp [exStore])).2 (by simp [exStore, exPurchase])⟩

/-- C10: `getClosedPositions` returns a permutation of the stored list
(no record added, removed or modified), sorted by `sellDate` in
descending order (every earlier element's sale date is at least every
later one's). -/
theorem getClosedPositions_spec (closedPositions : List ClosedPosition) :
    (getClosedPositions closedPositions).Perm closedPositions ∧
    (getClosedPositions closedPositions).Pairwise
      (fun a b => b.sellDate ≤ a.sellDate) := by
  simp only [getClosedPositions]
  refine ⟨List.mergeSort_perm closedPositions _, ?_⟩
  have h := @List.sorted_mergeSort ClosedPosition
    (fun a b => decide (b.sellDate ≤ a.sellDate))
    (by
      intro a b c h1 h2
      simp only [decide_eq_true_eq] at h1 h2 ⊢
      omega)
    (by
      intro a b
      simp only [Bool.or_eq_true, decide_eq_true_eq]
      omega)
    closedPositions
  exact h.imp (fun hab => by simpa using hab)

end Studio
